import Mathlib

/-!
Verification of the AthenaX trading engine against its specification.

The Go sources are shallowly embedded:
* Go strings are modelled as `List Char` (all symbols involved are ASCII, so
  byte indexing and char indexing agree);
* `float64` prices and deltas are modelled as `ℚ`; Go's `int(x)` conversion
  (truncation toward zero) is `goTrunc`;
* fallible functions return `Except`;
* the Alpaca REST calls made by `TwoPercentDown.Run` are modelled by a
  `BrokerEnv` record holding the (deterministic) responses of the broker.
-/

namespace AthenaX

/-- The characters of a string literal (Go strings are modelled as `List Char`). -/
def strChars (s : String) : List Char :=
  s.data

/-- Numeric value of a decimal digit character. -/
def digitVal (c : Char) : ℕ :=
  c.toNat - 48

/-- Value of a list of decimal digit characters, most significant first. -/
def digitsVal (l : List Char) : ℕ :=
  l.foldl (fun a c => 10 * a + digitVal c) 0

/-- Unsigned part of `strconv.ParseFloat`: decimal digits with an optional
fractional part (`"123"`, `"123."`, `"123.45"`, `".45"`), at least one digit.
Returns the exact rational value. -/
def parseFloatUnsigned (s : List Char) : Except Unit ℚ :=
  let intPart := s.takeWhile Char.isDigit
  let rest := s.dropWhile Char.isDigit
  match rest with
  | [] =>
    if intPart.isEmpty then .error () else .ok (digitsVal intPart)
  | c :: frac =>
    if c = '.' then
      if frac.all Char.isDigit && !(intPart.isEmpty && frac.isEmpty) then
        .ok ((digitsVal intPart : ℚ) + (digitsVal frac : ℚ) / 10 ^ frac.length)
      else .error ()
    else .error ()

/-- Model of Go's `strconv.ParseFloat`, restricted to the plain decimal forms
`[+|-] digits [. digits]`. On strings made of decimal digits, `+`, `-` and
`.` — in particular on every OSI-encoded strike — this coincides exactly with
`ParseFloat`, which on that alphabet accepts precisely these forms and cannot
overflow at 8 characters. `ParseFloat`'s further accept-cases (exponents,
digit-separating underscores, hexadecimal floats, the `inf`/`nan` spellings,
and their `float64` range errors) are outside this model and outside the
domain of the characterization below. -/
def parseFloatSimple (s : List Char) : Except Unit ℚ :=
  match s with
  | [] => .error ()
  | c :: rest =>
    if c = '+' then parseFloatUnsigned rest
    else if c = '-' then
      match parseFloatUnsigned rest with
      | .error e => .error e
      | .ok q => .ok (-q)
    else parseFloatUnsigned (c :: rest)

/-- A calendar date (the `time.Time` values produced by `ParseOptionTicker`
are always midnight UTC of a calendar date, so a date triple is a faithful
model). -/
structure Date where
  year : ℕ
  month : ℕ
  day : ℕ
deriving DecidableEq, Repr

/-- Numeric key realizing the chronological order of dates whose month and day
are in calendar range (< 100); `time.Time.Before`/`Equal` on parsed expiries
agree with `<`/`=` on keys. -/
def Date.key (d : Date) : ℕ :=
  d.year * 10000 + d.month * 100 + d.day

/-- Gregorian leap-year rule (as in Go's `time` package). -/
def isLeapYear (y : ℕ) : Bool :=
  y % 4 = 0 && (y % 100 ≠ 0 || y % 400 = 0)

/-- Number of days of a month, as validated by `time.Parse`. -/
def daysInMonth (y m : ℕ) : ℕ :=
  if m = 2 then (if isLeapYear y then 29 else 28)
  else if m = 4 || m = 6 || m = 9 || m = 11 then 30
  else 31

/-- The date triple is a real calendar date (what `time.Parse` accepts). -/
def Date.valid (d : Date) : Prop :=
  1 ≤ d.month ∧ d.month ≤ 12 ∧ 1 ≤ d.day ∧ d.day ≤ daysInMonth d.year d.month

instance (d : Date) : Decidable d.valid := by
  unfold Date.valid; infer_instance

/-- Model of `time.Parse("2006-01-02", "20YY-MM-DD")` as invoked by
`ParseOptionTicker`: each two-character component must be decimal digits and
the resulting triple must be a real calendar date; the year is `2000 + YY`. -/
def parseDate (yy mm dd : List Char) : Except Unit Date :=
  if (yy ++ mm ++ dd).all Char.isDigit then
    let d : Date := ⟨2000 + digitsVal yy, digitsVal mm, digitsVal dd⟩
    if d.valid then .ok d else .error ()
  else .error ()

/-- Result of `ParseOptionTicker` (the Go struct `Option`; renamed to avoid
clashing with Lean's `Option`). The Go field `Type` holds the one-character
string `"C"` or `"P"`; it is modelled by that character. -/
structure ParsedOption where
  underlying : List Char
  expiry : Date
  type : Char
  strike : ℚ
  ticker : List Char
deriving DecidableEq, Repr

/-- The distinct `fmt.Errorf` sites of `ParseOptionTicker`, in source order. -/
inductive ParseError where
  | emptySymbol
  | tooShort
  | invalidStrike
  | missingType
  | invalidType
  | missingDate
  | invalidDate
deriving DecidableEq, Repr

/-- Model of `Client.ParseOptionTicker` (pkg/alpaca): strip the trailing
8-character strike (parsed with `ParseFloat` and divided by 1000), then the
option-type character, then the 6-character `YYMMDD` expiry; everything before
the date is the underlying. -/
def parseOptionTicker (symbol : List Char) : Except ParseError ParsedOption :=
  if symbol.isEmpty then .error .emptySymbol
  else if symbol.length < 8 then .error .tooShort
  else
    let strikeStr := symbol.drop (symbol.length - 8)
    match parseFloatSimple strikeStr with
    | .error _ => .error .invalidStrike
    | .ok strikeFloat =>
      let strike := strikeFloat / 1000
      let baseSymbol := symbol.take (symbol.length - 8)
      match baseSymbol.getLast? with
      | none => .error .missingType
      | some optionTypeChar =>
        if optionTypeChar = 'C' || optionTypeChar = 'P' then
          let datePart := baseSymbol.dropLast
          if datePart.length < 6 then .error .missingDate
          else
            let dateStr := datePart.drop (datePart.length - 6)
            match parseDate (dateStr.take 2) ((dateStr.drop 2).take 2) (dateStr.drop 4) with
            | .error _ => .error .invalidDate
            | .ok expiry =>
              let underlying := datePart.take (datePart.length - 6)
              .ok ⟨underlying, expiry, optionTypeChar, strike, symbol⟩
        else .error .invalidType

/-- Model of `marketdata.OptionGreeks`: only the delta is used by this code. -/
structure Greeks where
  delta : ℚ
deriving DecidableEq, Repr

/-- Model of `marketdata.OptionQuote`: only bid and ask are used by this code. -/
structure OptionQuote where
  bidPrice : ℚ
  askPrice : ℚ
deriving DecidableEq, Repr

/-- Model of `marketdata.OptionSnapshot`: `greeks`/`latestQuote` are nilable pointers,
modelled with `Option`. -/
structure OptionSnapshot where
  greeks : Option Greeks
  latestQuote : Option OptionQuote
deriving DecidableEq, Repr

/-- The anonymous record collected into `validOptions` in
`GetCallLeapsByDelta`. -/
structure ValidOption where
  symbol : List Char
  snapshot : OptionSnapshot
  delta : ℚ
  expiry : Date
deriving DecidableEq, Repr

/-- The filtering loop of `GetCallLeapsByDelta`: keep the chain entries (in
iteration order) that carry greeks, have `delta >= minDelta` and whose symbol
parses; record delta and parsed expiry. -/
def validOptionsOf (chain : List (List Char × OptionSnapshot)) (minDelta : ℚ) :
    List ValidOption :=
  chain.filterMap fun e =>
    match e.2.greeks with
    | none => none
    | some g =>
      if minDelta ≤ g.delta then
        match parseOptionTicker e.1 with
        | .error _ => none
        | .ok opt => some ⟨e.1, e.2, g.delta, opt.expiry⟩
      else none

/-- One step of the insertion sort performed by `sort.Slice` with comparator
`expiry.Before` (Go uses a stable insertion sort on the slice sizes arising
here): insert an element before the first strictly later expiry. -/
def insertByExpiry (x : ValidOption) : List ValidOption → List ValidOption
  | [] => [x]
  | y :: ys =>
    if x.expiry.key < y.expiry.key then x :: y :: ys else y :: insertByExpiry x ys

/-- The call `sort.Slice(validOptions, ...Before...)`, as stable insertion sort in
encounter order. -/
def sortByExpiry (l : List ValidOption) : List ValidOption :=
  l.foldl (fun acc x => insertByExpiry x acc) []

/-- Earlier-or-equal expiry, the order established by `sortByExpiry`. -/
def expiryLe (a b : ValidOption) : Prop :=
  a.expiry.key ≤ b.expiry.key

/-- The distinct error returns of `GetCallLeapsByDelta`, in source order. -/
inductive LeapsError where
  | emptyTicker
  | nonPositiveDelta
  | emptyChain
  | noneQualify
deriving DecidableEq, Repr

/-- Model of `Client.GetCallLeapsByDelta` from the point at which the option
chain has been fetched: `chain` is the `optionChain` map in its iteration
order. Mirrors the source: validate inputs, filter, sort by expiry, keep the
earliest-expiry group, scan for the minimum delta (strict `<`, so ties keep
the earlier entry), and return that entry's symbol and snapshot. -/
def getCallLeapsByDelta (underlyingTicker : List Char)
    (chain : List (List Char × OptionSnapshot)) (minDelta : ℚ) :
    Except LeapsError (List Char × OptionSnapshot) :=
  if underlyingTicker.isEmpty then .error .emptyTicker
  else if minDelta ≤ 0 then .error .nonPositiveDelta
  else if chain.isEmpty then .error .emptyChain
  else
    match sortByExpiry (validOptionsOf chain minDelta) with
    | [] => .error .noneQualify
    | first :: restSorted =>
      let earliestExpiry := first.expiry
      match (first :: restSorted).filter (fun o => o.expiry.key == earliestExpiry.key) with
      | [] => .error .noneQualify
      | g :: gs =>
        let minDeltaOption := gs.foldl (fun acc o => if o.delta < acc.delta then o else acc) g
        .ok (minDeltaOption.symbol, minDeltaOption.snapshot)

/-- Go's `int(x)` conversion on `float64`: truncation toward zero. -/
def goTrunc (q : ℚ) : ℤ :=
  if 0 ≤ q then ⌊q⌋ else ⌈q⌉

/-- Go's `float64(int(x*100)) / 100`: truncation to two decimal places. -/
def truncate2 (q : ℚ) : ℚ :=
  (goTrunc (q * 100) : ℚ) / 100

/-- The distinct error returns of `PlaceOptionLimitOrderWithTakeProfit` that
precede the REST call, in source order. -/
inductive OrderError where
  | emptySymbol
  | nilQuote
  | nonPositiveInvestment
  | nonPositiveTakeProfit
  | invalidBidAsk
  | insufficientBudget
deriving DecidableEq, Repr

/-- The order parameters computed by `PlaceOptionLimitOrderWithTakeProfit` and
handed to `PlaceOrder`. -/
structure OrderPlan where
  limitPrice : ℚ
  takeProfitPrice : ℚ
  quantity : ℤ
deriving DecidableEq, Repr

/-- Model of the pure planning part of
`Client.PlaceOptionLimitOrderWithTakeProfit` (everything up to the REST call):
validation, limit price at 99% of ask truncated to cents, take-profit price,
and contract quantity `int(investment / (ask*100))`, failing when that
quantity is not positive. -/
def placeOptionLimitOrderWithTakeProfit (investmentSize : ℚ)
    (optionSymbol : List Char) (optionQuote : Option OptionQuote)
    (takeProfitPercentage : ℚ) : Except OrderError OrderPlan :=
  if optionSymbol.isEmpty then .error .emptySymbol
  else
    match optionQuote with
    | none => .error .nilQuote
    | some quote =>
      if investmentSize ≤ 0 then .error .nonPositiveInvestment
      else if takeProfitPercentage ≤ 0 then .error .nonPositiveTakeProfit
      else if quote.bidPrice ≤ 0 ∨ quote.askPrice ≤ 0 then .error .invalidBidAsk
      else
        let limitPrice := truncate2 (quote.askPrice * 0.99)
        let takeProfitPrice := truncate2 (limitPrice * (1 + takeProfitPercentage / 100))
        let quantity := goTrunc (investmentSize / (quote.askPrice * 100))
        if quantity ≤ 0 then .error .insufficientBudget
        else .ok ⟨limitPrice, takeProfitPrice, quantity⟩

/-- The error return of the sizing logic of
`TwoPercentDown.calculateInvestmentSize` (the broker-fetch failures are wired
in `runTwoPercentDown`). -/
inductive SizeError where
  | noRemainingSpots
deriving DecidableEq, Repr

/-- Model of the sizing logic of `TwoPercentDown.calculateInvestmentSize`:
`remainingSpots = maxPositions - openCount`; fail when no spots remain,
otherwise split the buying power evenly over the remaining spots. -/
def calculateInvestmentSize (openCount : ℕ) (maxPositions : ℤ)
    (buyingPower : ℚ) : Except SizeError ℚ :=
  let remainingSpots : ℤ := maxPositions - (openCount : ℤ)
  if remainingSpots ≤ 0 then .error .noRemainingSpots
  else .ok (buyingPower / (remainingSpots : ℚ))

/-- Which notifier method `TwoPercentDown.Run` invokes on a given path.
`Notifier.Failure` posts a notification and returns a non-nil error;
`OrderPlaced`, `MaxActiveOptions` and `NoGapDown` post and return nil. -/
inductive Notification where
  | orderPlaced
  | failure
  | maxActiveOptions
  | noGapDown
deriving DecidableEq, Repr

/-- Observable outcome of one `TwoPercentDown.Run`: the notification posted
(if any), whether `Run` returns a non-nil error, and whether an order was
submitted to the broker. -/
structure RunResult where
  notification : Option Notification
  returnsError : Bool
  orderSubmitted : Bool
deriving DecidableEq, Repr

/-- The broker responses observed during one run (deterministic environment;
each REST call either fails or yields a value). `optionsPositionsCount` is the
length of the position list returned by `GetOptionsPositions`. -/
structure BrokerEnv where
  yesterdayClose : Except Unit ℚ
  currentPrice : Except Unit ℚ
  optionsPositionsCount : Except Unit ℕ
  optionChain : Except Unit (List (List Char × OptionSnapshot))
  buyingPower : Except Unit ℚ
  placeOrderAPI : Except Unit Unit
deriving Repr

/-- Model of `TwoPercentDown.Run` (pkg/strategies/two_percent_down.go),
notifier version: gap computation, inclusive `-2.0` threshold, capacity
check, LEAPS selection over the fetched chain, investment sizing (which
re-fetches the positions — same `BrokerEnv` field, hence the same count) and
order placement. Failure branches call `notifier.Failure`, which returns a
non-nil error; the `InsufficientBudget` order-planning failure is returned
directly with no notification. -/
def runTwoPercentDown (maxActiveOptions : ℕ) (env : BrokerEnv) : RunResult :=
  match env.yesterdayClose with
  | .error _ => ⟨some .failure, true, false⟩
  | .ok yesterdayClose =>
    match env.currentPrice with
    | .error _ => ⟨some .failure, true, false⟩
    | .ok currentPrice =>
      let changePercent := (currentPrice - yesterdayClose) / yesterdayClose * 100
      if changePercent ≤ -2 then
        match env.optionsPositionsCount with
        | .error _ => ⟨some .failure, true, false⟩
        | .ok openCount =>
          if maxActiveOptions ≤ openCount then ⟨some .maxActiveOptions, false, false⟩
          else
            match env.optionChain with
            | .error _ => ⟨some .failure, true, false⟩
            | .ok chain =>
              match getCallLeapsByDelta (strChars "QQQ") chain 0.60 with
              | .error _ => ⟨some .failure, true, false⟩
              | .ok (optionSymbol, optionSnapshot) =>
                match env.optionsPositionsCount with
                | .error _ => ⟨some .failure, true, false⟩
                | .ok openCount2 =>
                  match env.buyingPower with
                  | .error _ => ⟨some .failure, true, false⟩
                  | .ok buyingPower =>
                    match calculateInvestmentSize openCount2 (maxActiveOptions : ℤ) buyingPower with
                    | .error _ => ⟨some .failure, true, false⟩
                    | .ok investmentSize =>
                      match placeOptionLimitOrderWithTakeProfit investmentSize
                          optionSymbol optionSnapshot.latestQuote 50 with
                      | .error _ => ⟨none, true, false⟩
                      | .ok _ =>
                        match env.placeOrderAPI with
                        | .error _ => ⟨none, true, true⟩
                        | .ok _ => ⟨some .orderPlaced, false, true⟩
      else ⟨some .noGapDown, false, false⟩

/-- Decimal digit character of `n % 10`. -/
def digitChar (n : ℕ) : Char :=
  match n % 10 with
  | 0 => '0' | 1 => '1' | 2 => '2' | 3 => '3' | 4 => '4'
  | 5 => '5' | 6 => '6' | 7 => '7' | 8 => '8' | _ => '9'

/-- Two-digit zero-padded decimal rendering of `n < 100`. -/
def twoDigitChars (n : ℕ) : List Char :=
  [digitChar (n / 10), digitChar n]

/-- Eight-digit zero-padded decimal rendering of `n < 10^8` (the encoded
strike, `strike * 1000`). -/
def pad8Chars (n : ℕ) : List Char :=
  [digitChar (n / 10000000), digitChar (n / 1000000), digitChar (n / 100000),
   digitChar (n / 10000), digitChar (n / 1000), digitChar (n / 100),
   digitChar (n / 10), digitChar n]

/-- The `YYMMDD` rendering of a date with year `2000 + YY`. -/
def yymmddChars (d : Date) : List Char :=
  twoDigitChars (d.year - 2000) ++ twoDigitChars d.month ++ twoDigitChars d.day

/-- The OSI option-symbol encoding stated by the specification (§6):
`UNDERLYING + YYMMDD + C|P + strike*1000 zero-padded to 8 digits`. The
repository only decodes; this encoder is taken from the spec's encoding rule
in order to state the round-trip property. `strikeMilli` is `strike * 1000`. -/
def encodeOption (underlying : List Char) (d : Date) (ty : Char)
    (strikeMilli : ℕ) : List Char :=
  underlying ++ yymmddChars d ++ [ty] ++ pad8Chars strikeMilli

/-! Concrete fixtures used by the example parts of the claims. -/

/-- Snapshot with delta 0.65 (entry A of the selector example). -/
def snapA : OptionSnapshot := ⟨some ⟨0.65⟩, some ⟨12.00, 12.34⟩⟩

/-- Snapshot with delta 0.70 (entry B of the selector example). -/
def snapB : OptionSnapshot := ⟨some ⟨0.70⟩, some ⟨12.00, 12.34⟩⟩

/-- Snapshot with delta 0.62 (entry C of the selector example). -/
def snapC : OptionSnapshot := ⟨some ⟨0.62⟩, some ⟨12.00, 12.34⟩⟩

/-- The selector example of the spec: A and B expire 2025-01-17, C expires
2024-06-21; deltas 0.65 / 0.70 / 0.62. -/
def exampleChain : List (List Char × OptionSnapshot) :=
  [(strChars ("QQQ250117C00400000"), snapA),
   (strChars ("QQQ250117C00410000"), snapB),
   (strChars ("QQQ240621C00395000"), snapC)]

/-- Snapshot with delta 0.65 used by the tie-break fixtures. -/
def snapTie : OptionSnapshot := ⟨some ⟨0.65⟩, some ⟨12.00, 12.34⟩⟩

/-- Two entries with the same expiry and the same delta, in one iteration
order of the chain map. -/
def chainDE : List (List Char × OptionSnapshot) :=
  [(strChars ("QQQ270115C00400000"), snapTie),
   (strChars ("QQQ270115C00410000"), snapTie)]

/-- The same chain map contents in the other iteration order. -/
def chainED : List (List Char × OptionSnapshot) :=
  [(strChars ("QQQ270115C00410000"), snapTie),
   (strChars ("QQQ270115C00400000"), snapTie)]

/-- Environment of a run observing a 2.1% gap down, an available spot, the
example chain, and ample buying power: the run places an order. -/
def envOrder : BrokerEnv :=
  ⟨.ok 100, .ok (97.9 : ℚ), .ok 0, .ok exampleChain, .ok 100000, .ok ()⟩

/-- Environment of a run observing a 1.99% drop: no gap down. -/
def envNoGap : BrokerEnv :=
  ⟨.ok 100, .ok (98.01 : ℚ), .ok 0, .ok exampleChain, .ok 100000, .ok ()⟩

/-- Gap down, but all five position spots already taken. -/
def envMaxed : BrokerEnv :=
  ⟨.ok 100, .ok (97.9 : ℚ), .ok 5, .ok exampleChain, .ok 100000, .ok ()⟩

/-- Gap down with an empty option chain: no matching contract. -/
def envNoContract : BrokerEnv :=
  ⟨.ok 100, .ok (97.9 : ℚ), .ok 0, .ok [], .ok 100000, .ok ()⟩

/-- Gap down with buying power too small for one contract at ask 12.34:
budget 5000/5 = 1000 < 1234, so the planned quantity is 0. -/
def envPoor : BrokerEnv :=
  ⟨.ok 100, .ok (97.9 : ℚ), .ok 0, .ok exampleChain, .ok 5000, .ok ()⟩

/-! Evaluation lemmas for the concrete fixtures. -/

theorem parseEvalA : parseOptionTicker (strChars ("QQQ250117C00400000")) =
    .ok ⟨strChars ("QQQ"), ⟨2025, 1, 17⟩, 'C', 400, strChars ("QQQ250117C00400000")⟩ := by
  simp +decide [parseOptionTicker, strChars, parseFloatSimple, parseFloatUnsigned,
    parseDate, digitsVal, digitVal, Date.valid, daysInMonth, isLeapYear]
  norm_num

theorem parseEvalB : parseOptionTicker (strChars ("QQQ250117C00410000")) =
    .ok ⟨strChars ("QQQ"), ⟨2025, 1, 17⟩, 'C', 410, strChars ("QQQ250117C00410000")⟩ := by
  simp +decide [parseOptionTicker, strChars, parseFloatSimple, parseFloatUnsigned,
    parseDate, digitsVal, digitVal, Date.valid, daysInMonth, isLeapYear]
  norm_num

theorem parseEvalC : parseOptionTicker (strChars ("QQQ240621C00395000")) =
    .ok ⟨strChars ("QQQ"), ⟨2024, 6, 21⟩, 'C', 395, strChars ("QQQ240621C00395000")⟩ := by
  simp +decide [parseOptionTicker, strChars, parseFloatSimple, parseFloatUnsigned,
    parseDate, digitsVal, digitVal, Date.valid, daysInMonth, isLeapYear]
  norm_num

theorem parseEvalD : parseOptionTicker (strChars ("QQQ270115C00400000")) =
    .ok ⟨strChars ("QQQ"), ⟨2027, 1, 15⟩, 'C', 400, strChars ("QQQ270115C00400000")⟩ := by
  simp +decide [parseOptionTicker, strChars, parseFloatSimple, parseFloatUnsigned,
    parseDate, digitsVal, digitVal, Date.valid, daysInMonth, isLeapYear]
  norm_num

theorem parseEvalE : parseOptionTicker (strChars ("QQQ270115C00410000")) =
    .ok ⟨strChars ("QQQ"), ⟨2027, 1, 15⟩, 'C', 410, strChars ("QQQ270115C00410000")⟩ := by
  simp +decide [parseOptionTicker, strChars, parseFloatSimple, parseFloatUnsigned,
    parseDate, digitsVal, digitVal, Date.valid, daysInMonth, isLeapYear]
  norm_num

theorem validOptionsEvalExample : validOptionsOf exampleChain 0.60 =
    [⟨strChars ("QQQ250117C00400000"), snapA, 0.65, ⟨2025, 1, 17⟩⟩,
     ⟨strChars ("QQQ250117C00410000"), snapB, 0.70, ⟨2025, 1, 17⟩⟩,
     ⟨strChars ("QQQ240621C00395000"), snapC, 0.62, ⟨2024, 6, 21⟩⟩] := by
  simp only [validOptionsOf, exampleChain, List.filterMap_cons, List.filterMap_nil,
    snapA, snapB, snapC, parseEvalA, parseEvalB, parseEvalC]
  norm_num

theorem getCallLeapsEvalExample : getCallLeapsByDelta (strChars ("QQQ")) exampleChain 0.60 =
    .ok (strChars ("QQQ240621C00395000"), snapC) := by
  simp only [getCallLeapsByDelta, validOptionsEvalExample]
  norm_num [exampleChain, strChars, sortByExpiry, insertByExpiry, Date.key]

theorem getCallLeapsEvalDE : getCallLeapsByDelta (strChars ("QQQ")) chainDE 0.60 =
    .ok (strChars ("QQQ270115C00400000"), snapTie) := by
  simp only [getCallLeapsByDelta, validOptionsOf, chainDE, List.filterMap_cons,
    List.filterMap_nil, snapTie, parseEvalD, parseEvalE]
  norm_num [strChars, sortByExpiry, insertByExpiry, Date.key]

theorem getCallLeapsEvalED : getCallLeapsByDelta (strChars ("QQQ")) chainED 0.60 =
    .ok (strChars ("QQQ270115C00410000"), snapTie) := by
  simp only [getCallLeapsByDelta, validOptionsOf, chainED, List.filterMap_cons,
    List.filterMap_nil, snapTie, parseEvalD, parseEvalE]
  norm_num [strChars, sortByExpiry, insertByExpiry, Date.key]

theorem runEvalOrder : runTwoPercentDown 5 envOrder = ⟨some .orderPlaced, false, true⟩ := by
  simp only [runTwoPercentDown, envOrder, getCallLeapsEvalExample]
  norm_num [calculateInvestmentSize, placeOptionLimitOrderWithTakeProfit,
    truncate2, goTrunc, snapC, strChars]

theorem runEvalNoGap : runTwoPercentDown 5 envNoGap = ⟨some .noGapDown, false, false⟩ := by
  simp only [runTwoPercentDown, envNoGap]
  norm_num

theorem runEvalMaxed : runTwoPercentDown 5 envMaxed = ⟨some .maxActiveOptions, false, false⟩ := by
  simp only [runTwoPercentDown, envMaxed]
  norm_num

theorem runEvalNoContract : runTwoPercentDown 5 envNoContract = ⟨some .failure, true, false⟩ := by
  simp only [runTwoPercentDown, envNoContract]
  norm_num [getCallLeapsByDelta, strChars]

/-! ## Claim C10 -/

/-- C10: a symbol consisting of just a valid date, a type marker and eight
strike digits parses successfully, and the resulting `Underlying` is the
empty string: `ParseOptionTicker` never requires a non-empty underlying. -/
theorem parseOptionTicker_empty_underlying :
    parseOptionTicker (strChars ("240119C00420000")) =
      .ok ⟨[], ⟨2024, 1, 19⟩, 'C', 420, strChars ("240119C00420000")⟩ := by
  simp +decide [parseOptionTicker, strChars, parseFloatSimple, parseFloatUnsigned,
    parseDate, digitsVal, digitVal, Date.valid, daysInMonth, isLeapYear]
  norm_num

/-! ## Claim C3 -/

/-- C3: the position sizer fails with `CapacityExceeded` (its
`noRemainingSpots` error) exactly when `maxPositions - openCount <= 0`, and
otherwise returns `buyingPower / (maxPositions - openCount)`; in particular
`maxPositions=5, openCount=5` fails and `maxPositions=5, openCount=3,
buyingPower=1000` yields the budget 500. -/
theorem calculateInvestmentSize_correct :
    (∀ (openCount : ℕ) (maxPositions : ℤ) (buyingPower : ℚ),
      (calculateInvestmentSize openCount maxPositions buyingPower =
          .error .noRemainingSpots ↔ maxPositions - (openCount : ℤ) ≤ 0) ∧
      (0 < maxPositions - (openCount : ℤ) →
        calculateInvestmentSize openCount maxPositions buyingPower =
          .ok (buyingPower / ((maxPositions - (openCount : ℤ) : ℤ) : ℚ)))) ∧
    calculateInvestmentSize 5 5 1000 = .error .noRemainingSpots ∧
    calculateInvestmentSize 3 5 1000 = .ok 500 := by
  refine ⟨fun openCount maxPositions buyingPower => ?_, by norm_num [calculateInvestmentSize],
    by norm_num [calculateInvestmentSize]⟩
  constructor
  · unfold calculateInvestmentSize
    dsimp only
    split
    · simp only [true_iff]; omega
    · simp only [reduceCtorEq, false_iff]; omega
  · intro h
    unfold calculateInvestmentSize
    dsimp only
    rw [if_neg (by omega)]

/-- Witness for C3: the sizer at `openCount=3, maxPositions=5,
buyingPower=1000`. -/
theorem calculateInvestmentSize_correct_witness :
    calculateInvestmentSize 3 5 1000 = .ok (1000 / ((5 - ((3 : ℕ) : ℤ) : ℤ) : ℚ)) :=
  (calculateInvestmentSize_correct.1 3 5 1000).2 (by norm_num)

/-! ## Claim C9 -/

/-- C9 counterexample: with negative buying power and two remaining spots the
sizer does not fail with any `InvalidInput`; it returns the negative budget
-500. -/
theorem calculateInvestmentSize_negative_budget_cex :
    calculateInvestmentSize 3 5 (-1000) = .ok (-500) := by
  norm_num [calculateInvestmentSize]

/-- C9 amended: `calculateInvestmentSize` has no `InvalidInput` validation.
`maxPositions <= 0` does fail, but through the capacity check
(`remainingSpots <= 0`), and a negative buying power with remaining spots is
returned as a negative budget without error. -/
theorem calculateInvestmentSize_no_invalid_input :
    (∀ (openCount : ℕ) (maxPositions : ℤ) (buyingPower : ℚ), maxPositions ≤ 0 →
      calculateInvestmentSize openCount maxPositions buyingPower =
        .error .noRemainingSpots) ∧
    (∀ (openCount : ℕ) (maxPositions : ℤ) (buyingPower : ℚ),
      buyingPower < 0 → 0 < maxPositions - (openCount : ℤ) →
      calculateInvestmentSize openCount maxPositions buyingPower =
        .ok (buyingPower / ((maxPositions - (openCount : ℤ) : ℤ) : ℚ)) ∧
      buyingPower / ((maxPositions - (openCount : ℤ) : ℤ) : ℚ) < 0) := by
  constructor
  · intro openCount maxPositions buyingPower h
    unfold calculateInvestmentSize
    dsimp only
    rw [if_pos (by omega)]
  · intro openCount maxPositions buyingPower hbp hspots
    have hden : (0 : ℚ) < ((maxPositions - (openCount : ℤ) : ℤ) : ℚ) := by
      exact_mod_cast hspots
    refine ⟨?_, div_neg_of_neg_of_pos hbp hden⟩
    unfold calculateInvestmentSize
    dsimp only
    rw [if_neg (by omega)]

/-! ## Claim C1 -/

theorem mem_insertByExpiry {z x : ValidOption} {l : List ValidOption} :
    z ∈ insertByExpiry x l ↔ z = x ∨ z ∈ l := by
  induction l with
  | nil => simp [insertByExpiry]
  | cons y ys ih =>
    unfold insertByExpiry
    split
    · simp [List.mem_cons]
    · simp only [List.mem_cons, ih]
      tauto

theorem insertByExpiry_perm (x : ValidOption) (l : List ValidOption) :
    (insertByExpiry x l).Perm (x :: l) := by
  induction l with
  | nil => simp [insertByExpiry]
  | cons y ys ih =>
    unfold insertByExpiry
    split
    · exact List.Perm.refl _
    · exact (List.Perm.cons y ih).trans (List.Perm.swap x y ys)

theorem sortByExpiry_perm (l : List ValidOption) : (sortByExpiry l).Perm l := by
  suffices h : ∀ (l acc : List ValidOption),
      (l.foldl (fun acc x => insertByExpiry x acc) acc).Perm (l ++ acc) by
    simpa using h l []
  intro l
  induction l with
  | nil => intro acc; simp
  | cons x xs ih =>
    intro acc
    rw [List.foldl_cons]
    refine (ih (insertByExpiry x acc)).trans ?_
    refine (List.Perm.append_left xs (insertByExpiry_perm x acc)).trans ?_
    exact List.perm_middle

theorem pairwise_insertByExpiry {x : ValidOption} {l : List ValidOption}
    (h : l.Pairwise expiryLe) : (insertByExpiry x l).Pairwise expiryLe := by
  induction l with
  | nil => simp [insertByExpiry, expiryLe]
  | cons y ys ih =>
    rw [List.pairwise_cons] at h
    obtain ⟨hy, hys⟩ := h
    unfold insertByExpiry
    split
    · rename_i hlt
      rw [List.pairwise_cons]
      refine ⟨fun z hz => ?_, List.pairwise_cons.mpr ⟨hy, hys⟩⟩
      rcases List.mem_cons.mp hz with rfl | hz2
      · exact Nat.le_of_lt hlt
      · exact Nat.le_trans (Nat.le_of_lt hlt) (hy z hz2)
    · rename_i hnlt
      rw [List.pairwise_cons]
      refine ⟨fun z hz => ?_, ih hys⟩
      rcases mem_insertByExpiry.mp hz with rfl | hz2
      · exact Nat.le_of_not_lt hnlt
      · exact hy z hz2

theorem sortByExpiry_pairwise (l : List ValidOption) :
    (sortByExpiry l).Pairwise expiryLe := by
  suffices h : ∀ (l acc : List ValidOption), acc.Pairwise expiryLe →
      (l.foldl (fun acc x => insertByExpiry x acc) acc).Pairwise expiryLe by
    exact h l [] (by simp)
  intro l
  induction l with
  | nil => intro acc h; simpa using h
  | cons x xs ih =>
    intro acc h
    rw [List.foldl_cons]
    exact ih _ (pairwise_insertByExpiry h)

theorem foldl_minDelta_mem : ∀ (gs : List ValidOption) (g : ValidOption),
    gs.foldl (fun acc o => if o.delta < acc.delta then o else acc) g ∈ g :: gs := by
  intro gs
  induction gs with
  | nil => intro g; simp
  | cons o os ih =>
    intro g
    rw [List.foldl_cons]
    by_cases hc : o.delta < g.delta
    · rw [if_pos hc]
      exact List.mem_cons_of_mem g (ih o)
    · rw [if_neg hc]
      rcases List.mem_cons.mp (ih g) with h | h
      · rw [h]
        exact List.mem_cons_self g (o :: os)
      · exact List.mem_cons_of_mem g (List.mem_cons_of_mem o h)

theorem foldl_minDelta_le : ∀ (gs : List ValidOption) (g z : ValidOption),
    z ∈ g :: gs →
    (gs.foldl (fun acc o => if o.delta < acc.delta then o else acc) g).delta ≤ z.delta := by
  intro gs
  induction gs with
  | nil =>
    intro g z hz
    rcases List.mem_cons.mp hz with rfl | h
    · exact le_refl _
    · simp at h
  | cons o os ih =>
    intro g z hz
    rw [List.foldl_cons]
    by_cases hc : o.delta < g.delta
    · rw [if_pos hc]
      rcases List.mem_cons.mp hz with rfl | hz2
      · exact le_trans (ih o o (List.mem_cons_self _ _)) (le_of_lt hc)
      rcases List.mem_cons.mp hz2 with rfl | hz3
      · exact ih _ _ (List.mem_cons_self _ _)
      · exact ih _ _ (List.mem_cons_of_mem _ hz3)
    · rw [if_neg hc]
      rcases List.mem_cons.mp hz with rfl | hz2
      · exact ih _ _ (List.mem_cons_self _ _)
      rcases List.mem_cons.mp hz2 with rfl | hz3
      · exact le_trans (ih g g (List.mem_cons_self _ _)) (le_of_not_lt hc)
      · exact ih g z (List.mem_cons_of_mem _ hz3)

/-- C1: whenever some chain entry has greeks, delta at or above the floor and
a parseable symbol, `GetCallLeapsByDelta` succeeds and returns a qualifying
entry whose expiry is the earliest among all qualifying entries and whose
delta is minimal within that earliest-expiry group; entries without greeks or
with unparseable symbols are merely skipped. On the spec's example chain
(A 0.65 @ 2025-01-17, B 0.70 @ 2025-01-17, C 0.62 @ 2024-06-21, floor 0.60)
it selects C. -/
theorem getCallLeapsByDelta_correct :
    (∀ (underlyingTicker : List Char) (chain : List (List Char × OptionSnapshot))
        (minDelta : ℚ),
      underlyingTicker ≠ [] → 0 < minDelta →
      (∃ sym snap g, (sym, snap) ∈ chain ∧ snap.greeks = some g ∧
        minDelta ≤ g.delta ∧ ∃ opt, parseOptionTicker sym = .ok opt) →
      ∃ v, getCallLeapsByDelta underlyingTicker chain minDelta =
          .ok (v.symbol, v.snapshot) ∧
        v ∈ validOptionsOf chain minDelta ∧
        (∀ w ∈ validOptionsOf chain minDelta, v.expiry.key ≤ w.expiry.key) ∧
        (∀ w ∈ validOptionsOf chain minDelta,
          w.expiry.key = v.expiry.key → v.delta ≤ w.delta)) ∧
    getCallLeapsByDelta (strChars ("QQQ")) exampleChain 0.60 =
      .ok (strChars ("QQQ240621C00395000"), snapC) := by
  refine ⟨?_, getCallLeapsEvalExample⟩
  intro underlyingTicker chain minDelta ht hδ hex
  obtain ⟨sym, snap, g, hmem, hgre, hδ2, opt, hparse⟩ := hex
  have hv0 : (⟨sym, snap, g.delta, opt.expiry⟩ : ValidOption) ∈
      validOptionsOf chain minDelta := by
    rw [validOptionsOf, List.mem_filterMap]
    refine ⟨(sym, snap), hmem, ?_⟩
    simp [hgre, hδ2, hparse]
  have hvne : validOptionsOf chain minDelta ≠ [] := List.ne_nil_of_mem hv0
  have hsne : sortByExpiry (validOptionsOf chain minDelta) ≠ [] := by
    intro h
    apply hvne
    have hp := sortByExpiry_perm (validOptionsOf chain minDelta)
    rw [h] at hp
    exact (List.perm_nil.mp hp.symm)
  obtain ⟨first, rest, hsort⟩ := List.exists_cons_of_ne_nil hsne
  have hperm := sortByExpiry_perm (validOptionsOf chain minDelta)
  have hpair := sortByExpiry_pairwise (validOptionsOf chain minDelta)
  rw [hsort] at hperm hpair
  have hT : underlyingTicker.isEmpty = false := List.isEmpty_eq_false.mpr ht
  have hC : chain.isEmpty = false :=
    List.isEmpty_eq_false.mpr (List.ne_nil_of_mem hmem)
  unfold getCallLeapsByDelta
  simp only [hT, hC, Bool.false_eq_true, if_false]
  rw [if_neg (not_le.mpr hδ), hsort]
  dsimp only
  rw [List.filter_cons_of_pos (by simp)]
  dsimp only
  refine ⟨(rest.filter fun o => o.expiry.key == first.expiry.key).foldl
    (fun acc o => if o.delta < acc.delta then o else acc) first, rfl, ?_, ?_, ?_⟩
  all_goals
    have hvg := foldl_minDelta_mem
      (rest.filter fun o => o.expiry.key == first.expiry.key) first
    have hvs : (rest.filter fun o => o.expiry.key == first.expiry.key).foldl
        (fun acc o => if o.delta < acc.delta then o else acc) first ∈ first :: rest := by
      rcases List.mem_cons.mp hvg with h | h
      · rw [h]; exact List.mem_cons_self _ _
      · exact List.mem_cons_of_mem _ (List.mem_filter.mp h).1
    have hvkey : ((rest.filter fun o => o.expiry.key == first.expiry.key).foldl
        (fun acc o => if o.delta < acc.delta then o else acc) first).expiry.key =
        first.expiry.key := by
      rcases List.mem_cons.mp hvg with h | h
      · rw [h]
      · simpa using (List.mem_filter.mp h).2
  · exact hperm.mem_iff.mp hvs
  · intro w hw
    have hw_s : w ∈ first :: rest := hperm.mem_iff.mpr hw
    rw [hvkey]
    rcases List.mem_cons.mp hw_s with rfl | hw2
    · exact le_refl _
    · exact (List.pairwise_cons.mp hpair).1 w hw2
  · intro w hw hkey
    have hw_s : w ∈ first :: rest := hperm.mem_iff.mpr hw
    have hw_g : w ∈ first :: rest.filter fun o => o.expiry.key == first.expiry.key := by
      rcases List.mem_cons.mp hw_s with rfl | hw2
      · exact List.mem_cons_self _ _
      · refine List.mem_cons_of_mem _ (List.mem_filter.mpr ⟨hw2, ?_⟩)
        simp [hkey, hvkey]
    exact foldl_minDelta_le _ first w hw_g

/-- Witness for C1: on the example chain, entry C (delta 0.62, expiry
2024-06-21) qualifies, so the selector returns an earliest-expiry,
minimum-delta entry. -/
theorem getCallLeapsByDelta_correct_witness :
    ∃ v, getCallLeapsByDelta (strChars ("QQQ")) exampleChain 0.60 =
        .ok (v.symbol, v.snapshot) ∧
      v ∈ validOptionsOf exampleChain 0.60 ∧
      (∀ w ∈ validOptionsOf exampleChain 0.60, v.expiry.key ≤ w.expiry.key) ∧
      (∀ w ∈ validOptionsOf exampleChain 0.60,
        w.expiry.key = v.expiry.key → v.delta ≤ w.delta) :=
  getCallLeapsByDelta_correct.1 (strChars ("QQQ")) exampleChain 0.60
    (by decide) (by norm_num)
    ⟨strChars ("QQQ240621C00395000"), snapC, ⟨0.62⟩,
      by simp [exampleChain], rfl, by norm_num, _, parseEvalC⟩

/-! ## Claim C2 -/

theorem goTrunc_of_nonneg (q : ℚ) (h : 0 ≤ q) : goTrunc q = ⌊q⌋ := by
  unfold goTrunc
  rw [if_pos h]

theorem truncate2_of_nonneg (q : ℚ) (h : 0 ≤ q) :
    truncate2 q = ((⌊q * 100⌋ : ℤ) : ℚ) / 100 := by
  unfold truncate2
  rw [goTrunc_of_nonneg _ (mul_nonneg h (by norm_num))]

/-- C2: for positive budget, take-profit percent, bid and ask, the order
planner computes `limitPrice = floor(ask*0.99*100)/100` (truncation, not
rounding), `takeProfitPrice = floor(limitPrice*(1+tp/100)*100)/100` and
`quantity = floor(budget/(ask*100))`, failing with `InsufficientBudget`
exactly when that quantity is 0; in particular budget 500 at ask 12.34 fails
while budget 2000 buys one contract with limit 12.21 and take profit 18.31. -/
theorem placeOptionLimitOrder_plan_correct :
    (∀ (investmentSize takeProfitPercentage bid ask : ℚ) (optionSymbol : List Char),
      optionSymbol ≠ [] → 0 < investmentSize → 0 < takeProfitPercentage →
      0 < bid → 0 < ask →
      placeOptionLimitOrderWithTakeProfit investmentSize optionSymbol
          (some ⟨bid, ask⟩) takeProfitPercentage =
        (if ⌊investmentSize / (ask * 100)⌋ = 0 then .error .insufficientBudget
         else .ok ⟨((⌊ask * 0.99 * 100⌋ : ℤ) : ℚ) / 100,
           ((⌊((⌊ask * 0.99 * 100⌋ : ℤ) : ℚ) / 100 * (1 + takeProfitPercentage / 100) * 100⌋ : ℤ) : ℚ) / 100,
           ⌊investmentSize / (ask * 100)⌋⟩)) ∧
    placeOptionLimitOrderWithTakeProfit 500 (strChars ("QQQ240119C00420000"))
        (some ⟨12, 12.34⟩) 50 = .error .insufficientBudget ∧
    placeOptionLimitOrderWithTakeProfit 2000 (strChars ("QQQ240119C00420000"))
        (some ⟨12, 12.34⟩) 50 = .ok ⟨12.21, 18.31, 1⟩ := by
  refine ⟨?_,
    by norm_num [placeOptionLimitOrderWithTakeProfit, truncate2, goTrunc, strChars],
    by norm_num [placeOptionLimitOrderWithTakeProfit, truncate2, goTrunc, strChars]⟩
  intro investmentSize takeProfitPercentage bid ask optionSymbol hsym hinv htp hbid hask
  have hE : optionSymbol.isEmpty = false := List.isEmpty_eq_false.mpr hsym
  unfold placeOptionLimitOrderWithTakeProfit
  simp only [hE, Bool.false_eq_true, if_false]
  rw [if_neg (not_le.mpr hinv), if_neg (not_le.mpr htp),
    if_neg (by push_neg; exact ⟨hbid, hask⟩)]
  have h99 : (0 : ℚ) ≤ ask * 0.99 := mul_nonneg hask.le (by norm_num)
  rw [truncate2_of_nonneg _ h99]
  have hLnn : (0 : ℚ) ≤ ((⌊ask * 0.99 * 100⌋ : ℤ) : ℚ) / 100 := by
    have : (0 : ℤ) ≤ ⌊ask * 0.99 * 100⌋ :=
      Int.floor_nonneg.mpr (mul_nonneg h99 (by norm_num))
    exact div_nonneg (by exact_mod_cast this) (by norm_num)
  have h1tp : (0 : ℚ) ≤ 1 + takeProfitPercentage / 100 :=
    add_nonneg zero_le_one (div_nonneg htp.le (by norm_num))
  rw [truncate2_of_nonneg _ (mul_nonneg hLnn h1tp)]
  have hqnn : (0 : ℚ) ≤ investmentSize / (ask * 100) :=
    div_nonneg hinv.le (mul_nonneg hask.le (by norm_num))
  rw [goTrunc_of_nonneg _ hqnn]
  have hfl : (0 : ℤ) ≤ ⌊investmentSize / (ask * 100)⌋ := Int.floor_nonneg.mpr hqnn
  by_cases h0 : ⌊investmentSize / (ask * 100)⌋ = 0
  · rw [if_pos (by omega), if_pos h0]
  · rw [if_neg (by omega), if_neg h0]

/-- Witness for C2: the planner at budget 2000, take profit 50%, bid 12,
ask 12.34. -/
theorem placeOptionLimitOrder_plan_correct_witness :
    placeOptionLimitOrderWithTakeProfit 2000 (strChars ("QQQ240119C00420000"))
        (some ⟨12, 12.34⟩) 50 =
      (if ⌊(2000 : ℚ) / (12.34 * 100)⌋ = 0 then .error .insufficientBudget
       else .ok ⟨((⌊(12.34 : ℚ) * 0.99 * 100⌋ : ℤ) : ℚ) / 100,
         ((⌊((⌊(12.34 : ℚ) * 0.99 * 100⌋ : ℤ) : ℚ) / 100 * (1 + (50 : ℚ) / 100) * 100⌋ : ℤ) : ℚ) / 100,
         ⌊(2000 : ℚ) / (12.34 * 100)⌋⟩) :=
  placeOptionLimitOrder_plan_correct.1 2000 50 12 12.34
    (strChars ("QQQ240119C00420000")) (by decide) (by norm_num) (by norm_num)
    (by norm_num) (by norm_num)

/-! ## Claim C4 -/

/-- C4: the gap is `(current - baseline)/baseline * 100` and the selection
path is taken exactly when it is at most -2.0 (inclusive threshold);
otherwise the run terminates in the NoGap outcome — nil error, the distinct
`NoGapDown` notification, and no order. Concretely, current 97.9 against
baseline 100 triggers the selection path (here all the way to an order) and
current 98.01 ends in NoGap. -/
theorem run_gap_threshold_correct :
    (∀ (maxActive : ℕ) (env : BrokerEnv) (yesterdayClose currentPrice : ℚ),
      env.yesterdayClose = .ok yesterdayClose →
      env.currentPrice = .ok currentPrice →
      0 < yesterdayClose →
      (¬ ((currentPrice - yesterdayClose) / yesterdayClose * 100 ≤ -2) →
        runTwoPercentDown maxActive env = ⟨some .noGapDown, false, false⟩) ∧
      (((currentPrice - yesterdayClose) / yesterdayClose * 100 ≤ -2) →
        (runTwoPercentDown maxActive env).notification ≠ some .noGapDown)) ∧
    ((97.9 - 100 : ℚ) / 100 * 100 ≤ -2) ∧
    runTwoPercentDown 5 envOrder = ⟨some .orderPlaced, false, true⟩ ∧
    ¬ ((98.01 - 100 : ℚ) / 100 * 100 ≤ -2) ∧
    runTwoPercentDown 5 envNoGap = ⟨some .noGapDown, false, false⟩ := by
  refine ⟨?_, by norm_num, runEvalOrder, by norm_num, runEvalNoGap⟩
  intro maxActive env yc cp h1 h2 hyc
  obtain ⟨e1, e2, e3, e4, e5, e6⟩ := env
  simp only at h1 h2
  subst h1 h2
  constructor
  · intro hng
    unfold runTwoPercentDown
    dsimp only
    rw [if_neg hng]
  · intro hg
    unfold runTwoPercentDown
    dsimp only
    rw [if_pos hg]
    cases e3 with
    | error e => simp
    | ok n =>
      dsimp only
      by_cases hn : maxActive ≤ n
      · rw [if_pos hn]; simp
      · rw [if_neg hn]
        cases e4 with
        | error e => simp
        | ok chain =>
          dsimp only
          cases hL : getCallLeapsByDelta (strChars ("QQQ")) chain 0.60 with
          | error e => simp
          | ok pair =>
            obtain ⟨sym, snap⟩ := pair
            dsimp only
            cases e5 with
            | error e => simp
            | ok bp =>
              dsimp only
              cases hS : calculateInvestmentSize n (maxActive : ℤ) bp with
              | error e => simp
              | ok inv =>
                dsimp only
                cases hP : placeOptionLimitOrderWithTakeProfit inv sym
                    snap.latestQuote 50 with
                | error e => simp
                | ok plan =>
                  cases e6 with
                  | error e => simp
                  | ok u => simp

/-- Witness for C4: at baseline 100 and current 98.01 the run ends in NoGap
with no error and no order. -/
theorem run_gap_threshold_correct_witness :
    ¬ ((98.01 - 100 : ℚ) / 100 * 100 ≤ -2) ∧
    runTwoPercentDown 5 envNoGap = ⟨some .noGapDown, false, false⟩ :=
  ⟨by norm_num,
    (run_gap_threshold_correct.1 5 envNoGap 100 98.01 rfl rfl (by norm_num)).1
      (by norm_num)⟩

/-! ## Claim C8 -/

/-- C8 counterexample: a run that fails for insufficient budget (planned
quantity 0) posts no notification at all and `Run` returns a non-nil error,
contradicting the claim that this outcome is reported via the Notifier and
that the run terminates successfully. -/
theorem run_insufficient_budget_cex :
    runTwoPercentDown 5 envPoor = ⟨none, true, false⟩ := by
  simp only [runTwoPercentDown, envPoor, getCallLeapsEvalExample]
  norm_num [calculateInvestmentSize, placeOptionLimitOrderWithTakeProfit,
    truncate2, goTrunc, snapC, strChars]

/-- C8 amended: of the three business outcomes, only CapacityExceeded (max
active options reached) is notified with `Run` returning nil and no order;
NoMatchingContract is notified through `Failure`, which makes `Run` return a
non-nil error (no order); InsufficientBudget produces no notification and a
non-nil error (no order). -/
theorem run_business_outcomes :
    (∀ (m : ℕ) (env : BrokerEnv) (yc cp : ℚ) (n : ℕ),
      env.yesterdayClose = .ok yc → env.currentPrice = .ok cp →
      (cp - yc) / yc * 100 ≤ -2 →
      env.optionsPositionsCount = .ok n → m ≤ n →
      runTwoPercentDown m env = ⟨some .maxActiveOptions, false, false⟩) ∧
    (∀ (m : ℕ) (env : BrokerEnv) (yc cp : ℚ) (n : ℕ)
        (chain : List (List Char × OptionSnapshot)) (e : LeapsError),
      env.yesterdayClose = .ok yc → env.currentPrice = .ok cp →
      (cp - yc) / yc * 100 ≤ -2 →
      env.optionsPositionsCount = .ok n → n < m →
      env.optionChain = .ok chain →
      getCallLeapsByDelta (strChars ("QQQ")) chain 0.60 = .error e →
      runTwoPercentDown m env = ⟨some .failure, true, false⟩) ∧
    (∀ (m : ℕ) (env : BrokerEnv) (yc cp : ℚ) (n : ℕ)
        (chain : List (List Char × OptionSnapshot)) (sym : List Char)
        (snap : OptionSnapshot) (bp inv : ℚ),
      env.yesterdayClose = .ok yc → env.currentPrice = .ok cp →
      (cp - yc) / yc * 100 ≤ -2 →
      env.optionsPositionsCount = .ok n → n < m →
      env.optionChain = .ok chain →
      getCallLeapsByDelta (strChars ("QQQ")) chain 0.60 = .ok (sym, snap) →
      env.buyingPower = .ok bp →
      calculateInvestmentSize n (m : ℤ) bp = .ok inv →
      placeOptionLimitOrderWithTakeProfit inv sym snap.latestQuote 50 =
        .error .insufficientBudget →
      runTwoPercentDown m env = ⟨none, true, false⟩) := by
  refine ⟨?_, ?_, ?_⟩
  · intro m env yc cp n h1 h2 hg h3 hn
    obtain ⟨e1, e2, e3, e4, e5, e6⟩ := env
    simp only at h1 h2 h3
    subst h1 h2 h3
    unfold runTwoPercentDown
    dsimp only
    rw [if_pos hg, if_pos hn]
  · intro m env yc cp n chain e h1 h2 hg h3 hn h4 hL
    obtain ⟨e1, e2, e3, e4, e5, e6⟩ := env
    simp only at h1 h2 h3 h4
    subst h1 h2 h3 h4
    unfold runTwoPercentDown
    dsimp only
    rw [if_pos hg, if_neg (not_le.mpr hn), hL]
  · intro m env yc cp n chain sym snap bp inv h1 h2 hg h3 hn h4 hL h5 hS hP
    obtain ⟨e1, e2, e3, e4, e5, e6⟩ := env
    simp only at h1 h2 h3 h4 h5
    subst h1 h2 h3 h4 h5
    unfold runTwoPercentDown
    dsimp only
    rw [if_pos hg, if_neg (not_le.mpr hn), hL]
    dsimp only
    rw [hS]
    dsimp only
    rw [hP]

/-- Witness for C8's amended claim: the three outcomes on concrete
environments — capacity reached, empty chain, and insufficient budget. -/
theorem run_business_outcomes_witness :
    runTwoPercentDown 5 envMaxed = ⟨some .maxActiveOptions, false, false⟩ ∧
    runTwoPercentDown 5 envNoContract = ⟨some .failure, true, false⟩ ∧
    runTwoPercentDown 5 envPoor = ⟨none, true, false⟩ :=
  ⟨run_business_outcomes.1 5 envMaxed 100 97.9 5 rfl rfl (by norm_num) rfl
      (by norm_num),
   run_business_outcomes.2.1 5 envNoContract 100 97.9 0 [] .emptyChain rfl rfl
      (by norm_num) rfl (by norm_num) rfl
      (by norm_num [getCallLeapsByDelta, strChars]),
   run_business_outcomes.2.2 5 envPoor 100 97.9 0 exampleChain
      (strChars ("QQQ240621C00395000")) snapC 5000 1000 rfl rfl (by norm_num)
      rfl (by norm_num) rfl getCallLeapsEvalExample rfl
      (by norm_num [calculateInvestmentSize])
      (by norm_num [placeOptionLimitOrderWithTakeProfit, truncate2, goTrunc,
        snapC, strChars])⟩

/-! ## Claim C5 -/

/-- C5 (code bug): the selection among tied candidates (equal minimal delta in
the earliest-expiry group) depends on the iteration order of the chain map.
The two chains below hold the same symbol-to-snapshot mapping in the two
possible iteration orders, yet the selected symbols differ, so repeated calls
over a Go map (whose iteration order is randomized) need not return the
identical symbol, and no tie-break on the full (delta, symbol) tuple is
performed. -/
theorem getCallLeapsByDelta_map_order_dependent :
    chainDE.Perm chainED ∧
    getCallLeapsByDelta (strChars ("QQQ")) chainDE 0.60 =
      .ok (strChars ("QQQ270115C00400000"), snapTie) ∧
    getCallLeapsByDelta (strChars ("QQQ")) chainED 0.60 =
      .ok (strChars ("QQQ270115C00410000"), snapTie) ∧
    strChars ("QQQ270115C00400000") ≠ strChars ("QQQ270115C00410000") := by
  refine ⟨?_, getCallLeapsEvalDE, getCallLeapsEvalED, by decide⟩
  simp only [chainDE, chainED]
  exact List.Perm.swap _ _ _

/-! ## Claim C7, counterexample -/

/-- C7 counterexample: a symbol whose trailing 8 characters are not all
decimal digits (`0.420000`) is still parsed successfully, because the code
feeds them to `strconv.ParseFloat`, which accepts decimal points. -/
theorem parseOptionTicker_nondigit_strike_cex :
    parseOptionTicker (strChars ("QQQ240119C0.420000")) =
      .ok ⟨strChars ("QQQ"), ⟨2024, 1, 19⟩, 'C', 21 / 50000,
        strChars ("QQQ240119C0.420000")⟩ ∧
    ((strChars ("QQQ240119C0.420000")).drop
        ((strChars ("QQQ240119C0.420000")).length - 8)).all Char.isDigit = false := by
  constructor
  · simp +decide [parseOptionTicker, strChars, parseFloatSimple, parseFloatUnsigned,
      parseDate, digitsVal, digitVal, Date.valid, daysInMonth, isLeapYear]
    norm_num
  · decide

/-- Witness for C9's amended claim: `maxPositions = 0` fails via the capacity
check, and `buyingPower = -1000` with two spots yields a negative budget. -/
theorem calculateInvestmentSize_no_invalid_input_witness :
    calculateInvestmentSize 0 0 1000 = .error .noRemainingSpots ∧
    (calculateInvestmentSize 3 5 (-1000) =
        .ok ((-1000) / ((5 - ((3 : ℕ) : ℤ) : ℤ) : ℚ)) ∧
      ((-1000) : ℚ) / ((5 - ((3 : ℕ) : ℤ) : ℤ) : ℚ) < 0) :=
  ⟨calculateInvestmentSize_no_invalid_input.1 0 0 1000 (by norm_num),
   calculateInvestmentSize_no_invalid_input.2 3 5 (-1000) (by norm_num) (by norm_num)⟩

/-! ## Claim C6 -/

theorem digitChar_isDigit (n : ℕ) : (digitChar n).isDigit = true := by
  have h : n % 10 = 0 ∨ n % 10 = 1 ∨ n % 10 = 2 ∨ n % 10 = 3 ∨ n % 10 = 4 ∨
      n % 10 = 5 ∨ n % 10 = 6 ∨ n % 10 = 7 ∨ n % 10 = 8 ∨ n % 10 = 9 := by omega
  unfold digitChar
  rcases h with h|h|h|h|h|h|h|h|h|h <;> rw [h] <;> rfl

theorem digitVal_digitChar (n : ℕ) : digitVal (digitChar n) = n % 10 := by
  have h : n % 10 = 0 ∨ n % 10 = 1 ∨ n % 10 = 2 ∨ n % 10 = 3 ∨ n % 10 = 4 ∨
      n % 10 = 5 ∨ n % 10 = 6 ∨ n % 10 = 7 ∨ n % 10 = 8 ∨ n % 10 = 9 := by omega
  unfold digitChar
  rcases h with h|h|h|h|h|h|h|h|h|h <;> rw [h] <;> simp [digitVal]

theorem isDigit_ne_plus {c : Char} (h : c.isDigit = true) : c ≠ '+' := by
  intro hc; rw [hc] at h; exact absurd h (by decide)

theorem isDigit_ne_minus {c : Char} (h : c.isDigit = true) : c ≠ '-' := by
  intro hc; rw [hc] at h; exact absurd h (by decide)

theorem parseFloatUnsigned_digits (l : List Char) (hne : l ≠ [])
    (hall : l.all Char.isDigit = true) :
    parseFloatUnsigned l = .ok (digitsVal l : ℚ) := by
  unfold parseFloatUnsigned
  rw [List.takeWhile_eq_self_iff.mpr (List.all_eq_true.mp hall),
    List.dropWhile_eq_nil_iff.mpr fun x hx => (List.all_eq_true.mp hall) x hx]
  dsimp only
  rw [if_neg (by simp [List.isEmpty_eq_false.mpr hne])]

theorem parseFloatSimple_digits (l : List Char) (hne : l ≠ [])
    (hall : l.all Char.isDigit = true) :
    parseFloatSimple l = .ok (digitsVal l : ℚ) := by
  cases l with
  | nil => exact absurd rfl hne
  | cons c rest =>
    have hc : c.isDigit = true := by
      have := List.all_eq_true.mp hall c (List.mem_cons_self _ _)
      exact this
    simp only [parseFloatSimple]
    rw [if_neg (isDigit_ne_plus hc), if_neg (isDigit_ne_minus hc)]
    exact parseFloatUnsigned_digits _ (by simp) hall

theorem pad8Chars_all_digit (n : ℕ) : (pad8Chars n).all Char.isDigit = true := by
  simp [pad8Chars, digitChar_isDigit]

theorem digitsVal_pad8 (n : ℕ) (h : n < 100000000) : digitsVal (pad8Chars n) = n := by
  simp only [pad8Chars, digitsVal, List.foldl_cons, List.foldl_nil, digitVal_digitChar]
  omega

theorem parseFloat_pad8 (n : ℕ) (h : n < 100000000) :
    parseFloatSimple (pad8Chars n) = .ok (n : ℚ) := by
  rw [parseFloatSimple_digits (pad8Chars n) (by simp [pad8Chars]) (pad8Chars_all_digit n),
    digitsVal_pad8 n h]

theorem digitsVal_twoDigit (n : ℕ) (h : n < 100) : digitsVal (twoDigitChars n) = n := by
  simp only [twoDigitChars, digitsVal, List.foldl_cons, List.foldl_nil, digitVal_digitChar]
  omega

theorem daysInMonth_le_31 (y m : ℕ) : daysInMonth y m ≤ 31 := by
  unfold daysInMonth
  split_ifs <;> omega

theorem parseDate_yymmdd (d : Date) (hv : d.valid) (h1 : 2000 ≤ d.year)
    (h2 : d.year ≤ 2099) :
    parseDate (twoDigitChars (d.year - 2000)) (twoDigitChars d.month)
      (twoDigitChars d.day) = .ok d := by
  obtain ⟨y, m, dd⟩ := d
  obtain ⟨hm1, hm2, hd1, hd2⟩ := hv
  simp only at h1 h2 hm1 hm2 hd1 hd2
  have hd31 : dd ≤ 31 := le_trans hd2 (daysInMonth_le_31 y m)
  unfold parseDate
  rw [if_pos (by simp [twoDigitChars, digitChar_isDigit])]
  dsimp only
  rw [digitsVal_twoDigit _ (by omega), digitsVal_twoDigit m (by omega),
    digitsVal_twoDigit dd (by omega)]
  have hy : 2000 + (y - 2000) = y := by omega
  rw [hy]
  rw [if_pos ⟨hm1, hm2, hd1, hd2⟩]


/-- C6: parsing the spec's OSI encoding
`UNDERLYING ++ YYMMDD ++ (C|P) ++ 8-digit strike*1000` reproduces the
underlying, expiry date, type and strike exactly, for any alphanumeric
underlying not ending in a digit, valid 20YY date, type marker C or P and
strike with at most 8 digits in thousandths. -/
theorem parseOptionTicker_encode_roundtrip :
    ∀ (underlying : List Char) (d : Date) (ty : Char) (strikeMilli : ℕ),
      underlying.all Char.isAlphanum = true →
      (∀ c, underlying.getLast? = some c → c.isDigit = false) →
      d.valid → 2000 ≤ d.year → d.year ≤ 2099 →
      (ty = 'C' ∨ ty = 'P') → strikeMilli < 100000000 →
      parseOptionTicker (encodeOption underlying d ty strikeMilli) =
        .ok ⟨underlying, d, ty, (strikeMilli : ℚ) / 1000,
          encodeOption underlying d ty strikeMilli⟩ := by
  intro u d ty n halnum hlast hv hy1 hy2 hty hn
  have hlen : (encodeOption u d ty n).length = u.length + 15 := by
    simp [encodeOption, yymmddChars, twoDigitChars, pad8Chars]
  have hne : encodeOption u d ty n ≠ [] := by
    intro h
    rw [h] at hlen
    simp only [List.length_nil] at hlen
    omega
  have hsplit : encodeOption u d ty n = (u ++ yymmddChars d ++ [ty]) ++ pad8Chars n := by
    simp [encodeOption, List.append_assoc]
  have hpreflen : (u ++ yymmddChars d ++ [ty]).length = u.length + 7 := by
    simp [yymmddChars, twoDigitChars]
  unfold parseOptionTicker
  simp only [List.isEmpty_eq_false.mpr hne, Bool.false_eq_true, if_false]
  rw [if_neg (by omega : ¬ (encodeOption u d ty n).length < 8)]
  rw [hsplit]
  rw [List.drop_left' (by rw [hsplit] at hlen; omega :
    (u ++ yymmddChars d ++ [ty]).length = ((u ++ yymmddChars d ++ [ty]) ++ pad8Chars n).length - 8)]
  rw [parseFloat_pad8 n hn]
  dsimp only
  rw [List.take_left' (by rw [hsplit] at hlen; omega :
    (u ++ yymmddChars d ++ [ty]).length = ((u ++ yymmddChars d ++ [ty]) ++ pad8Chars n).length - 8)]
  rw [List.getLast?_concat]
  dsimp only
  rw [if_pos (by rcases hty with h | h <;> simp [h] : (ty = 'C' || ty = 'P') = true)]
  rw [List.dropLast_concat]
  have hdplen : (u ++ yymmddChars d).length = u.length + 6 := by
    simp [yymmddChars, twoDigitChars]
  rw [if_neg (by omega : ¬ (u ++ yymmddChars d).length < 6)]
  rw [List.drop_left' (by omega : u.length = (u ++ yymmddChars d).length - 6)]
  rw [List.take_left' (by omega : u.length = (u ++ yymmddChars d).length - 6)]
  have hymd : yymmddChars d = twoDigitChars (d.year - 2000) ++
      (twoDigitChars d.month ++ twoDigitChars d.day) := by
    simp [yymmddChars, List.append_assoc]
  rw [hymd]
  rw [List.take_left' (by simp [twoDigitChars] :
    (twoDigitChars (d.year - 2000)).length = 2)]
  rw [List.drop_left' (by simp [twoDigitChars] :
    (twoDigitChars (d.year - 2000)).length = 2)]
  rw [List.take_left' (by simp [twoDigitChars] : (twoDigitChars d.month).length = 2)]
  rw [show twoDigitChars (d.year - 2000) ++ (twoDigitChars d.month ++ twoDigitChars d.day) =
      (twoDigitChars (d.year - 2000) ++ twoDigitChars d.month) ++ twoDigitChars d.day from by
    simp [List.append_assoc]]
  rw [List.drop_left' (by simp [twoDigitChars] :
    (twoDigitChars (d.year - 2000) ++ twoDigitChars d.month).length = 4)]
  rw [parseDate_yymmdd d hv hy1 hy2]

/-- Witness for C6: the round trip at `QQQ`, 2024-01-19, call, strike 420.000
(encoded `QQQ240119C00420000`). -/
theorem parseOptionTicker_encode_roundtrip_witness :
    parseOptionTicker (encodeOption (strChars ("QQQ")) ⟨2024, 1, 19⟩ 'C' 420000) =
      .ok ⟨strChars ("QQQ"), ⟨2024, 1, 19⟩, 'C', (420000 : ℚ) / 1000,
        encodeOption (strChars ("QQQ")) ⟨2024, 1, 19⟩ 'C' 420000⟩ :=
  parseOptionTicker_encode_roundtrip (strChars ("QQQ")) ⟨2024, 1, 19⟩ 'C' 420000
    (by decide)
    (by
      intro c hc
      simp [strChars] at hc
      subst hc
      decide)
    (by decide) (by decide) (by decide) (Or.inl rfl) (by decide)

/-! ## Claim C7, amended characterization -/

theorem take_sub8_length (s : List Char) :
    (s.take (s.length - 8)).length = s.length - 8 := by
  simp [List.length_take]

theorem getLast_take_sub8 {s : List Char} (h9 : 9 ≤ s.length) :
    (s.take (s.length - 8)).getLast? = s[s.length - 9]? := by
  rw [List.getLast?_eq_getElem?, take_sub8_length s, List.getElem?_take,
    if_pos (by omega)]
  have h : s.length - 8 - 1 = s.length - 9 := by omega
  rw [h]

theorem dropLast_take_sub8 {s : List Char} (h9 : 9 ≤ s.length) :
    (s.take (s.length - 8)).dropLast = s.take (s.length - 9) := by
  rw [List.dropLast_eq_take, take_sub8_length s, List.take_take]
  congr 1
  omega

theorem take_sub9_length (s : List Char) :
    (s.take (s.length - 9)).length = s.length - 9 := by
  simp [List.length_take]

theorem dateStr_slice {s : List Char} (h15 : 15 ≤ s.length) :
    (s.take (s.length - 9)).drop (s.length - 9 - 6) = (s.drop (s.length - 15)).take 6 := by
  have h : s.length - 9 - 6 = s.length - 15 := by omega
  rw [h, List.drop_take]
  congr 1
  omega

/-- C7 amended: for symbols whose trailing 8 characters are decimal digits,
signs or decimal points — the alphabet on which `strconv.ParseFloat` accepts
exactly the plain decimal forms `[+|-] digits [. digits]` and cannot report a
range error, and which covers every OSI-encoded strike — `ParseOptionTicker`
succeeds iff the symbol is at least 8 characters long, the character 9 from
the end exists and is exactly `C` or `P`, the 6 characters before it exist
and form a valid `YYMMDD` date (year `2000+YY`), and the trailing 8
characters parse as such a decimal number; failure (the spec's
`MalformedSymbol`) happens exactly when one of these fails. Contrary to the
original claim the trailing characters need not be all digits: `0.420000` is
accepted. Outside this alphabet `ParseFloat` accepts further forms
(exponents, underscores, hex floats, `Infinity`), which this
characterization deliberately does not cover. -/
theorem parseOptionTicker_failure_iff :
    ∀ s : List Char,
      (s.drop (s.length - 8)).all
          (fun c => c.isDigit || c = '+' || c = '-' || c = '.') = true →
      ((∃ o, parseOptionTicker s = .ok o) ↔
        (8 ≤ s.length ∧
         (9 ≤ s.length ∧ ∃ c, s[s.length - 9]? = some c ∧ (c = 'C' ∨ c = 'P')) ∧
         (15 ≤ s.length ∧
           ∃ d, parseDate (((s.drop (s.length - 15)).take 6).take 2)
             ((((s.drop (s.length - 15)).take 6).drop 2).take 2)
             (((s.drop (s.length - 15)).take 6).drop 4) = .ok d) ∧
         (∃ q, parseFloatSimple (s.drop (s.length - 8)) = .ok q))) := by
  intro s _halpha
  constructor
  · rintro ⟨o, ho⟩
    unfold parseOptionTicker at ho
    cases hE : s.isEmpty with
    | true => rw [hE] at ho; simp at ho
    | false =>
    rw [hE] at ho
    simp only [Bool.false_eq_true, if_false] at ho
    by_cases h8 : s.length < 8
    · rw [if_pos h8] at ho; simp at ho
    rw [if_neg h8] at ho
    try dsimp only at ho
    cases hF : parseFloatSimple (s.drop (s.length - 8)) with
    | error e => rw [hF] at ho; simp at ho
    | ok q =>
    rw [hF] at ho
    try dsimp only at ho
    cases hL : (s.take (s.length - 8)).getLast? with
    | none => rw [hL] at ho; simp at ho
    | some tc =>
    rw [hL] at ho
    try dsimp only at ho
    by_cases hT : (tc = 'C' || tc = 'P') = true
    case neg => rw [if_neg hT] at ho; simp at ho
    rw [if_pos hT] at ho
    by_cases hD6 : (s.take (s.length - 8)).dropLast.length < 6
    · rw [if_pos hD6] at ho; simp at ho
    rw [if_neg hD6] at ho
    try dsimp only at ho
    have h9 : 9 ≤ s.length := by
      have hne : s.take (s.length - 8) ≠ [] := by
        intro hcon
        rw [hcon] at hL
        simp at hL
      have := take_sub8_length s
      have hlen1 : 1 ≤ (s.take (s.length - 8)).length :=
        List.length_pos.mpr hne
      omega
    rw [dropLast_take_sub8 h9] at ho hD6
    rw [take_sub9_length s] at ho hD6
    have h15 : 15 ≤ s.length := by omega
    rw [dateStr_slice h15] at ho
    cases hPD : parseDate (((s.drop (s.length - 15)).take 6).take 2)
        ((((s.drop (s.length - 15)).take 6).drop 2).take 2)
        (((s.drop (s.length - 15)).take 6).drop 4) with
    | error e => rw [hPD] at ho; simp at ho
    | ok dd =>
    refine ⟨by omega, ⟨h9, tc, ?_, ?_⟩, ⟨h15, dd, rfl⟩, q, rfl⟩
    · rw [← getLast_take_sub8 h9]
      exact hL
    · simpa using hT
  · rintro ⟨h8, ⟨h9, c, hc, hcp⟩, ⟨h15, d, hd⟩, q, hq⟩
    have hne : s ≠ [] := by
      intro h
      rw [h] at h8
      simp at h8
    refine ⟨⟨(s.take (s.length - 9)).take (s.length - 9 - 6), d, c, q / 1000, s⟩, ?_⟩
    unfold parseOptionTicker
    simp only [List.isEmpty_eq_false.mpr hne, Bool.false_eq_true, if_false]
    rw [if_neg (by omega)]
    try dsimp only
    rw [hq]
    try dsimp only
    rw [getLast_take_sub8 h9, hc]
    try dsimp only
    rw [if_pos (by rcases hcp with rfl | rfl <;> simp)]
    rw [dropLast_take_sub8 h9, take_sub9_length s]
    rw [if_neg (by omega)]
    rw [dateStr_slice h15, hd]

/-- Witness for C7's amended claim: `QQQ240119C00420000` has an all-digit
tail (inside the characterized alphabet) and satisfies the four conditions,
so it parses. -/
theorem parseOptionTicker_failure_iff_witness :
    ((strChars ("QQQ240119C00420000")).drop
        ((strChars ("QQQ240119C00420000")).length - 8)).all
      (fun c => c.isDigit || c = '+' || c = '-' || c = '.') = true ∧
    (∃ o, parseOptionTicker (strChars ("QQQ240119C00420000")) = .ok o) :=
  ⟨by decide,
   (parseOptionTicker_failure_iff (strChars ("QQQ240119C00420000"))
      (by decide)).mpr
    ⟨by decide, ⟨by decide, 'C', by decide, Or.inl rfl⟩,
     ⟨by decide, ⟨2024, 1, 19⟩, by
       simp +decide [strChars, parseDate, digitsVal, digitVal, Date.valid,
         daysInMonth, isLeapYear]⟩,
     ⟨420000, by
       simp +decide [strChars, parseFloatSimple, parseFloatUnsigned,
         digitsVal, digitVal]⟩⟩⟩

end AthenaX


